import Mathlib

/-!
Verification of the gfndskycolor color-extraction pipeline specification.

The repository captures a webcam frame (src/capture_image.js, a puppeteer
script) and derives a single representative sky color from it via a
region-crop, pixel-sampling, k-means clustering, dominant-color-selection
pipeline.  The capture script is embedded from its source below; the
color-extraction core is not present under src/, so it is modelled from
the specification text (each such definition says so in its doc comment).
-/

set_option autoImplicit false

namespace SkyColor

/-- Modelled from the spec: a pixel color value, three 8-bit channels
(spec section 3, "Image" and section 6, output format). Channels are
naturals; validity (each channel at most 255) is a separate predicate. -/
structure Color where
  r : Nat
  g : Nat
  b : Nat
deriving DecidableEq

/-- A color is within the valid 8-bit color-space bounds. -/
def Color.valid (c : Color) : Prop := c.r ≤ 255 ∧ c.g ≤ 255 ∧ c.b ≤ 255

instance (c : Color) : Decidable c.valid := by
  unfold Color.valid; infer_instance

/-- Modelled from the spec: an Image is a 2D grid of pixels
(spec section 3).  Represented as dimensions plus a pixel lookup. -/
structure Image where
  width : Nat
  height : Nat
  pixel : Nat → Nat → Color

/-- Modelled from the spec: a rectangular region-of-interest
configuration (spec section 4.1, "fixed pixel rectangle"). -/
structure Rect where
  x : Nat
  y : Nat
  w : Nat
  h : Nat
deriving DecidableEq

/-- Modelled from the spec: the error kinds of the pipeline
(spec section 7). -/
inductive PipeError where
  | InvalidRegion
  | EmptySample
  | ClusteringDidNotConverge
  | NoClusters
deriving DecidableEq

/-- Modelled from the spec: a Region is a rectangular subset of an
Image's coordinate space, bundled with the image it selects from
(spec section 3, "Region"). -/
structure Region where
  img : Image
  rect : Rect

/-- Modelled from the spec: the Region Selector (spec section 4.1).
Fails with InvalidRegion if the configured bounds fall outside the
image or collapse to zero area; otherwise returns the region exactly
as configured (no clipping). -/
def regionSelect (img : Image) (rect : Rect) : Except PipeError Region :=
  if rect.w = 0 ∨ rect.h = 0 ∨ img.width < rect.x + rect.w ∨ img.height < rect.y + rect.h then
    .error .InvalidRegion
  else
    .ok ⟨img, rect⟩

/-- Number of indices selected from a length-`len` span when stepping
with a given stride: the count of `i` with `i * stride < len`. -/
def strideCount (len stride : Nat) : Nat := (len + stride - 1) / stride

/-- Modelled from the spec: the coordinates visited by the Pixel
Sampler, iterating the region's pixels with a deterministic
stride-based subsample (spec section 4.2); stride 1 visits every pixel. -/
def sampleCoords (rect : Rect) (stride : Nat) : List (Nat × Nat) :=
  (List.range (strideCount rect.h stride)).flatMap fun j =>
    (List.range (strideCount rect.w stride)).map fun i =>
      (rect.x + i * stride, rect.y + j * stride)

/-- Modelled from the spec: the Pixel Sampler (spec section 4.2).
Converts the selected region into a flat collection of color samples,
applying the same (identity, RGB) conversion to every pixel; fails
with EmptySample if the resulting set has zero elements. -/
def pixelSampler (reg : Region) (stride : Nat) : Except PipeError (List Color) :=
  let samples := (sampleCoords reg.rect stride).map fun p => reg.img.pixel p.1 p.2
  if samples.isEmpty then .error .EmptySample else .ok samples

/-- Squared Euclidean distance between two colors in RGB space
(spec section 4.3 step 2). -/
def dist2 (a b : Color) : Int :=
  ((a.r : Int) - b.r) ^ 2 + ((a.g : Int) - b.g) ^ 2 + ((a.b : Int) - b.b) ^ 2

/-- Auxiliary scan for the nearest-centroid search: carries the current
candidate index, the best index so far and its distance.  Strict
comparison keeps the lowest index on distance ties. -/
def nearestIdxAux (s : Color) : List Color → Nat → Nat → Int → Nat
  | [], _, best, _ => best
  | c :: rest, i, best, bestD =>
    if dist2 s c < bestD then nearestIdxAux s rest (i + 1) i (dist2 s c)
    else nearestIdxAux s rest (i + 1) best bestD

/-- Index of the centroid nearest to a sample (ties to the lowest
index); 0 for an empty centroid list. -/
def nearestIdx (centroids : List Color) (s : Color) : Nat :=
  match centroids with
  | [] => 0
  | c :: rest => nearestIdxAux s rest 1 0 (dist2 s c)

/-- Assign every sample to its nearest centroid (spec section 4.3
step 2). -/
def assignAll (centroids : List Color) (samples : List Color) : List Nat :=
  samples.map (nearestIdx centroids)

/-- The samples assigned to cluster index `i`. -/
def members (samples : List Color) (assign : List Nat) (i : Nat) : List Color :=
  ((samples.zip assign).filter fun p => p.2 == i).map Prod.fst

def sumR : List Color → Nat
  | [] => 0
  | c :: t => c.r + sumR t

def sumG : List Color → Nat
  | [] => 0
  | c :: t => c.g + sumG t

def sumB : List Color → Nat
  | [] => 0
  | c :: t => c.b + sumB t

/-- Channel-wise mean of a list of colors, truncating each channel
(fixed rounding policy, spec section 4.3 numeric semantics); an empty
list keeps the supplied previous centroid. -/
def meanColor (l : List Color) (prev : Color) : Color :=
  match l with
  | [] => prev
  | _ :: _ => ⟨sumR l / l.length, sumG l / l.length, sumB l / l.length⟩

/-- Recompute each centroid as the mean of its assigned samples (spec
section 4.3 step 2); a centroid with no assigned samples is kept
unchanged for the next iteration (it is dropped from the final result,
see `clusterEngine`). -/
def recompute (samples : List Color) (assign : List Nat) (centroids : List Color) : List Color :=
  centroids.enum.map fun p => meanColor (members samples assign p.1) p.2

/-- The k-means iteration loop (spec section 4.3 steps 2-3), with fuel
equal to the configured iteration cap.  Returns the final centroids,
the number of centroid-updating iterations performed, and whether the
convergence criterion (centroids stable, hence assignments stable) was
reached before the cap. -/
def kmeansLoop (samples : List Color) : Nat → List Color → List Color × Nat × Bool
  | 0, centroids => (centroids, 0, false)
  | fuel + 1, centroids =>
    let a := assignAll centroids samples
    let c := recompute samples a centroids
    if c = centroids then (centroids, 0, true)
    else
      let r := kmeansLoop samples fuel c
      (r.1, r.2.1 + 1, r.2.2)

/-- Modelled from the spec: a Cluster is a centroid color plus a member
count (spec section 3, "Cluster"). -/
structure Cluster where
  centroid : Color
  count : Nat
deriving DecidableEq

/-- Modelled from the spec: a Clustering Result plus diagnostic
iteration count and convergence flag (spec sections 3 and 4.3). -/
structure KmeansOut where
  clusters : List Cluster
  iterations : Nat
  converged : Bool
deriving DecidableEq

/-- Modelled from the spec: deterministic seeding policy, the first K
distinct samples (spec section 4.3 step 1). -/
def firstDistinct (l : List Color) : List Color :=
  l.foldl (fun acc c => if c ∈ acc then acc else acc ++ [c]) []

def seedCentroids (k : Nat) (samples : List Color) : List Color :=
  (firstDistinct samples).take k

/-- Modelled from the spec: the Cluster Engine (spec section 4.3).
Seeds from the first K distinct samples, iterates up to the cap, then
reports each centroid with its member count under the final
assignment; clusters left with zero members are dropped from the final
result (documented policy choice of step 4). -/
def clusterEngine (k cap : Nat) (samples : List Color) : KmeansOut :=
  let seeds := seedCentroids k samples
  let r := kmeansLoop samples cap seeds
  let a := assignAll r.1 samples
  let clusters :=
    (r.1.enum.map fun p => Cluster.mk p.2 ((a.filter fun j => j == p.1).length)).filter
      fun c => c.count != 0
  ⟨clusters, r.2.1, r.2.2⟩

/-- Lexicographic order on colors, used as the fixed deterministic
tie-break of the Dominant Color Selector (spec section 4.4). -/
def lexLe (a b : Color) : Bool :=
  decide (a.r < b.r ∨ (a.r = b.r ∧ (a.g < b.g ∨ (a.g = b.g ∧ a.b ≤ b.b))))

/-- Whether cluster `a` is preferred over (or tied-and-chosen against)
cluster `b`: strictly larger member count, or equal count with the
lexicographically smaller-or-equal centroid. -/
def better (a b : Cluster) : Bool :=
  decide (b.count < a.count) || (decide (a.count = b.count) && lexLe a.centroid b.centroid)

/-- Fold selecting the preferred cluster. -/
def pickDominant : Cluster → List Cluster → Cluster
  | best, [] => best
  | best, c :: rest => pickDominant (if better best c then best else c) rest

/-- Modelled from the spec: the Dominant Color Selector (spec section
4.4).  Picks the centroid of the cluster with the largest member
count, ties broken by the lexicographically smallest centroid; fails
with NoClusters on an empty Clustering Result. -/
def dominantColorSelector (cs : List Cluster) : Except PipeError Color :=
  match cs with
  | [] => .error .NoClusters
  | c :: rest => .ok (pickDominant c rest).centroid

/-- Modelled from the spec: the static per-invocation configuration
(spec section 6): region rectangle, subsampling stride, K, iteration
cap, and the caller-opt-in convergence requirement (spec section 4.3). -/
structure Config where
  rect : Rect
  stride : Nat
  k : Nat
  cap : Nat
  requireConvergence : Bool

/-- Modelled from the spec: the Cluster Engine wrapped with the
caller-opt-in ClusteringDidNotConverge failure (spec section 4.3:
"Fails with ClusteringDidNotConverge only if convergence tracking is
required by the caller"). -/
def clusterEngineE (cfg : Config) (samples : List Color) : Except PipeError KmeansOut :=
  let out := clusterEngine cfg.k cfg.cap samples
  if cfg.requireConvergence && !out.converged then .error .ClusteringDidNotConverge
  else .ok out

/-- Modelled from the spec: the full pipeline, raw image in, one color
out (spec sections 1-2), each stage's failure propagated to the caller
as an error result (spec section 7). -/
def runPipeline (cfg : Config) (img : Image) : Except PipeError Color := do
  let reg ← regionSelect img cfg.rect
  let samples ← pixelSampler reg cfg.stride
  let out ← clusterEngineE cfg samples
  dominantColorSelector out.clusters

/-- The fixed 10x10 synthetic test image of the spec's testable
properties: a 4x4 pure-blue sub-rectangle (here at x,y in [3,7)), all
other pixels red. -/
def testImage : Image :=
  ⟨10, 10, fun x y =>
    if 3 ≤ x ∧ x < 7 ∧ 3 ≤ y ∧ y < 7 then ⟨0, 0, 255⟩ else ⟨255, 0, 0⟩⟩

/-- Pipeline configuration selecting exactly the blue 4x4
sub-rectangle of `testImage`, with default-style K and cap. -/
def testConfig : Config :=
  ⟨⟨3, 3, 4, 4⟩, 1, 3, 10, false⟩

end SkyColor

namespace Capture

/-- The observable actions of the first capture script variant
(src/capture_image.js): browser launch, the steps of the try block,
the catch block's error log, and the finally block's browser close. -/
inductive Action where
  | launch
  | newPage
  | goto
  | pressK
  | pressF
  | screenshot
  | logError
  | closeBrowser
deriving DecidableEq

/-- The body of the try block of src/capture_image.js, in program
order: open a page, navigate to the stream, press k then f, take the
screenshot (the awaited timeouts have no observable action). -/
def tryBody : List Action := [.newPage, .goto, .pressK, .pressF, .screenshot]

/-- Run a sequence of awaited steps under a fault scenario `throws`:
each step is invoked in order until one throws; returns the invoked
steps and whether an exception escaped. -/
def runSteps (throws : Action → Bool) : List Action → List Action × Bool
  | [] => ([], false)
  | a :: rest =>
    if throws a then ([a], true)
    else
      let r := runSteps throws rest
      (a :: r.1, r.2)

/-- The trace of the async IIFE of src/capture_image.js (the
try/catch/finally variant) once `puppeteer.launch` has resolved: the
try body runs until it finishes or a step throws, a thrown exception
is caught and logged by the catch block, and the finally block closes
the browser on every path. -/
def captureTrace (throws : Action → Bool) : List Action :=
  let r := runSteps throws tryBody
  .launch :: r.1 ++ (if r.2 then [.logError] else []) ++ [.closeBrowser]

end Capture

namespace SkyColor

theorem length_flatMap_const {α β : Type} (l : List α) (f : α → List β) (m : Nat)
    (h : ∀ a, (f a).length = m) : (l.flatMap f).length = l.length * m := by
  induction l with
  | nil => simp
  | cons a t ih => simp [h, ih, Nat.succ_mul, Nat.add_comm]

theorem strideCount_one (len : Nat) : strideCount len 1 = len := by
  simp [strideCount]

theorem strideCount_pos (len stride : Nat) (hl : 1 ≤ len) (hs : 1 ≤ stride) :
    1 ≤ strideCount len stride := by
  unfold strideCount
  rw [Nat.one_le_div_iff (by omega)]
  omega

theorem sampleCoords_length (rect : Rect) (stride : Nat) :
    (sampleCoords rect stride).length =
      strideCount rect.h stride * strideCount rect.w stride := by
  unfold sampleCoords
  rw [length_flatMap_const _ _ (strideCount rect.w stride) (fun j => by simp)]
  simp

/-- C4: the Region Selector fails with InvalidRegion exactly when the
configured rectangle has zero area or extends beyond the image bounds;
on success it returns the configured rectangle unchanged (no clipping). -/
theorem regionSelect_spec (img : Image) (rect : Rect) :
    ((rect.w = 0 ∨ rect.h = 0 ∨ img.width < rect.x + rect.w ∨
        img.height < rect.y + rect.h) ↔
      regionSelect img rect = .error .InvalidRegion) ∧
    (∀ reg, regionSelect img rect = .ok reg → reg = ⟨img, rect⟩) := by
  constructor
  · unfold regionSelect
    split <;> simp_all
  · intro reg h
    unfold regionSelect at h
    split at h <;> simp_all

/-- Witness for C4: a 20x20 rectangle on the 10x10 test image is
rejected with InvalidRegion. -/
theorem regionSelect_spec_witness :
    regionSelect testImage ⟨0, 0, 20, 20⟩ = .error .InvalidRegion :=
  (regionSelect_spec testImage ⟨0, 0, 20, 20⟩).1.mp (by decide)

/-- C5: the Pixel Sampler fails with EmptySample exactly when the
resulting sample collection has zero elements, and for every region of
positive area (with a positive stride) it returns a non-empty Sample
Set whose size is the deterministic subsample count, which at stride 1
is the region's pixel count. -/
theorem pixelSampler_spec :
    (∀ (reg : Region) (stride : Nat),
      pixelSampler reg stride = .error .EmptySample ↔
        ((sampleCoords reg.rect stride).map fun p => reg.img.pixel p.1 p.2) = []) ∧
    (∀ (reg : Region) (stride : Nat), 1 ≤ stride → 1 ≤ reg.rect.w → 1 ≤ reg.rect.h →
      ∃ l, pixelSampler reg stride = .ok l ∧ l ≠ [] ∧
        l.length = strideCount reg.rect.w stride * strideCount reg.rect.h stride ∧
        (stride = 1 → l.length = reg.rect.w * reg.rect.h)) := by
  constructor
  · intro reg stride
    simp only [pixelSampler]
    split <;> simp_all [List.isEmpty_iff]
  · intro reg stride hs hw hh
    refine ⟨(sampleCoords reg.rect stride).map fun p => reg.img.pixel p.1 p.2, ?_, ?_, ?_, ?_⟩
    · simp only [pixelSampler]
      split <;> simp_all [List.isEmpty_iff]
      · have h1 := sampleCoords_length reg.rect stride
        have h2 := strideCount_pos reg.rect.w stride hw hs
        have h3 := strideCount_pos reg.rect.h stride hh hs
        simp_all
        omega
    · have h1 := sampleCoords_length reg.rect stride
      have h2 := strideCount_pos reg.rect.w stride hw hs
      have h3 := strideCount_pos reg.rect.h stride hh hs
      intro hnil
      rw [← List.length_eq_zero] at hnil
      simp_all
      omega
    · rw [List.length_map, sampleCoords_length]
      exact Nat.mul_comm _ _
    · intro h1
      subst h1
      rw [List.length_map, sampleCoords_length, strideCount_one, strideCount_one]
      exact Nat.mul_comm _ _

/-- Witness for C5: the 3x2 top-left region of the test image at
stride 1 yields a non-empty 6-element Sample Set. -/
theorem pixelSampler_spec_witness :
    ∃ l, pixelSampler ⟨testImage, ⟨0, 0, 3, 2⟩⟩ 1 = .ok l ∧ l ≠ [] ∧
      l.length = strideCount 3 1 * strideCount 2 1 ∧
      ((1 : Nat) = 1 → l.length = 3 * 2) :=
  pixelSampler_spec.2 ⟨testImage, ⟨0, 0, 3, 2⟩⟩ 1 (by decide) (by decide) (by decide)

end SkyColor

namespace SkyColor

theorem kmeansLoop_iterations_le (samples : List Color) :
    ∀ (fuel : Nat) (cs : List Color), (kmeansLoop samples fuel cs).2.1 ≤ fuel := by
  intro fuel
  induction fuel with
  | zero => intro cs; simp [kmeansLoop]
  | succ n ih =>
    intro cs
    simp only [kmeansLoop]
    split
    · simp
    · simpa using Nat.succ_le_succ (ih _)

/-- C3: the Cluster Engine's k-means loop performs at most the
configured iteration cap many iterations on any finite Sample Set. -/
theorem clusterEngine_terminates (k cap : Nat) (samples : List Color) :
    (clusterEngine k cap samples).iterations ≤ cap := by
  simpa [clusterEngine] using kmeansLoop_iterations_le samples cap (seedCentroids k samples)

/-- C2: the Cluster Engine is a deterministic function of its inputs:
two runs with identical seeding policy parameter K, identical
iteration cap and identical Sample Set produce identical Clustering
Results (the model takes every input explicitly; there is no ambient
or shared mutable state between runs). -/
theorem clusterEngine_deterministic (k₁ cap₁ : Nat) (s₁ : List Color)
    (k₂ cap₂ : Nat) (s₂ : List Color)
    (hk : k₁ = k₂) (hcap : cap₁ = cap₂) (hs : s₁ = s₂) :
    clusterEngine k₁ cap₁ s₁ = clusterEngine k₂ cap₂ s₂ := by
  rw [hk, hcap, hs]

/-- Witness for C2: two identical runs on a one-sample set agree. -/
theorem clusterEngine_deterministic_witness :
    clusterEngine 3 10 [⟨0, 0, 255⟩] = clusterEngine 3 10 [⟨0, 0, 255⟩] :=
  clusterEngine_deterministic 3 10 [⟨0, 0, 255⟩] 3 10 [⟨0, 0, 255⟩] rfl rfl rfl

/-- C1: on the fixed 10x10 synthetic image whose 4x4 sub-rectangle is
pure blue and whose other pixels are red, the full pipeline with the
Region Selector configured to exactly that sub-rectangle returns
(0,0,255) as the Dominant Color. -/
theorem pipeline_blue_dominant :
    runPipeline testConfig testImage = .ok ⟨0, 0, 255⟩ := by rfl

/-- C9: an invocation of the pipeline fails exactly when one of its
stages fails, and then it surfaces precisely that stage's error to the
caller as an error result: no InvalidRegion, EmptySample,
ClusteringDidNotConverge or NoClusters failure is swallowed. -/
theorem runPipeline_surfaces_errors (cfg : Config) (img : Image) (e : PipeError) :
    runPipeline cfg img = .error e ↔
      (regionSelect img cfg.rect = .error e ∨
       ∃ reg, regionSelect img cfg.rect = .ok reg ∧
         (pixelSampler reg cfg.stride = .error e ∨
          ∃ samples, pixelSampler reg cfg.stride = .ok samples ∧
            (clusterEngineE cfg samples = .error e ∨
             ∃ out, clusterEngineE cfg samples = .ok out ∧
               dominantColorSelector out.clusters = .error e))) := by
  unfold runPipeline
  cases hr : regionSelect img cfg.rect with
  | error e₁ => simp [hr, Bind.bind, Except.bind]
  | ok reg =>
    cases hp : pixelSampler reg cfg.stride with
    | error e₂ => simp [hr, hp, Bind.bind, Except.bind]
    | ok samples =>
      cases hc : clusterEngineE cfg samples with
      | error e₃ => simp [hr, hp, hc, Bind.bind, Except.bind]
      | ok out => simp [hr, hp, hc, Bind.bind, Except.bind]

end SkyColor

namespace Capture

theorem runSteps_mem (throws : Action → Bool) :
    ∀ (l : List Action) (a : Action), a ∈ (runSteps throws l).1 → a ∈ l := by
  intro l
  induction l with
  | nil => intro a h; simp [runSteps] at h
  | cons b t ih =>
    intro a h
    simp only [runSteps] at h
    split at h
    · simp at h
      simp [h]
    · simp at h
      rcases h with h | h
      · simp [h]
      · exact List.mem_cons_of_mem _ (ih a h)

/-- C10: in the try/catch/finally variant of src/capture_image.js,
once the browser has launched, every execution path — including those
where a try-block step throws — invokes browser.close() exactly once,
as the final action before the script finishes. -/
theorem captureTrace_closes_browser_once (throws : Action → Bool) :
    (captureTrace throws).count .closeBrowser = 1 ∧
    ∃ l, captureTrace throws = l ++ [.closeBrowser] ∧ Action.closeBrowser ∉ l := by
  have hmem : Action.closeBrowser ∉ (runSteps throws tryBody).1 := by
    intro h
    have h2 := runSteps_mem throws tryBody _ h
    simp [tryBody] at h2
  have hl : Action.closeBrowser ∉
      (Action.launch :: (runSteps throws tryBody).1) ++
        (if (runSteps throws tryBody).2 then [Action.logError] else []) := by
    intro h
    rcases List.mem_append.mp h with h | h
    · rcases List.mem_cons.mp h with h | h
      · exact absurd h (by simp)
      · exact hmem h
    · split at h <;> simp_all
  have heq : captureTrace throws =
      ((Action.launch :: (runSteps throws tryBody).1) ++
        (if (runSteps throws tryBody).2 then [Action.logError] else [])) ++
        [Action.closeBrowser] := by
    simp [captureTrace]
  constructor
  · rw [heq, List.count_append, List.count_eq_zero.mpr hl]
    simp
  · exact ⟨_, heq, hl⟩

end Capture

namespace SkyColor

theorem snd_mem_of_mem_enum {α : Type} {l : List α} {i : Nat} {a : α}
    (h : (i, a) ∈ l.enum) : a ∈ l := by
  obtain ⟨hi, ha⟩ := List.mem_enum h
  rw [ha]
  exact List.getElem_mem hi

theorem members_subset (samples : List Color) (assign : List Nat) (i : Nat) (x : Color)
    (h : x ∈ members samples assign i) : x ∈ samples := by
  unfold members at h
  obtain ⟨⟨a, b⟩, hmem, rfl⟩ := List.mem_map.mp h
  exact (List.of_mem_zip (List.mem_of_mem_filter hmem)).1

theorem sumR_le (l : List Color) (h : ∀ c ∈ l, c.r ≤ 255) : sumR l ≤ 255 * l.length := by
  induction l with
  | nil => simp [sumR]
  | cons c t ih =>
    simp only [sumR, List.length_cons]
    have h1 := h c (List.mem_cons_self _ _)
    have h2 := ih fun d hd => h d (List.mem_cons_of_mem _ hd)
    omega

theorem sumG_le (l : List Color) (h : ∀ c ∈ l, c.g ≤ 255) : sumG l ≤ 255 * l.length := by
  induction l with
  | nil => simp [sumG]
  | cons c t ih =>
    simp only [sumG, List.length_cons]
    have h1 := h c (List.mem_cons_self _ _)
    have h2 := ih fun d hd => h d (List.mem_cons_of_mem _ hd)
    omega

theorem sumB_le (l : List Color) (h : ∀ c ∈ l, c.b ≤ 255) : sumB l ≤ 255 * l.length := by
  induction l with
  | nil => simp [sumB]
  | cons c t ih =>
    simp only [sumB, List.length_cons]
    have h1 := h c (List.mem_cons_self _ _)
    have h2 := ih fun d hd => h d (List.mem_cons_of_mem _ hd)
    omega

theorem div_le_255 (s n : Nat) (hn : 0 < n) (hs : s ≤ 255 * n) : s / n ≤ 255 :=
  calc s / n ≤ 255 * n / n := Nat.div_le_div_right hs
    _ = 255 := Nat.mul_div_cancel 255 hn

theorem meanColor_valid (l : List Color) (prev : Color)
    (hl : ∀ c ∈ l, c.valid) (hp : prev.valid) : (meanColor l prev).valid := by
  match l with
  | [] => exact hp
  | c :: t =>
    have hr := sumR_le (c :: t) fun d hd => (hl d hd).1
    have hg := sumG_le (c :: t) fun d hd => (hl d hd).2.1
    have hb := sumB_le (c :: t) fun d hd => (hl d hd).2.2
    have hlen : 0 < (c :: t).length := by simp
    exact ⟨div_le_255 _ _ hlen hr, div_le_255 _ _ hlen hg, div_le_255 _ _ hlen hb⟩

theorem recompute_valid (samples : List Color) (assign : List Nat) (centroids : List Color)
    (hs : ∀ c ∈ samples, c.valid) (hc : ∀ c ∈ centroids, c.valid) :
    ∀ x ∈ recompute samples assign centroids, x.valid := by
  intro x hx
  unfold recompute at hx
  obtain ⟨⟨i, a⟩, hmem, rfl⟩ := List.mem_map.mp hx
  exact meanColor_valid _ _ (fun d hd => hs d (members_subset samples assign i d hd))
    (hc a (snd_mem_of_mem_enum hmem))

theorem kmeansLoop_valid (samples : List Color) (hs : ∀ c ∈ samples, c.valid) :
    ∀ (fuel : Nat) (cs : List Color), (∀ c ∈ cs, c.valid) →
      ∀ x ∈ (kmeansLoop samples fuel cs).1, x.valid := by
  intro fuel
  induction fuel with
  | zero => intro cs hcs x hx; simp [kmeansLoop] at hx; exact hcs x hx
  | succ n ih =>
    intro cs hcs x hx
    simp only [kmeansLoop] at hx
    split at hx
    · exact hcs x (by simpa using hx)
    · have hc := recompute_valid samples (assignAll cs samples) cs hs hcs
      exact ih _ hc x (by simpa using hx)

theorem seedCentroids_valid (k : Nat) (samples : List Color)
    (hs : ∀ c ∈ samples, c.valid) : ∀ x ∈ seedCentroids k samples, x.valid := by
  intro x hx
  unfold seedCentroids at hx
  have h1 : x ∈ firstDistinct samples := List.take_subset _ _ hx
  unfold firstDistinct at h1
  have h2 : ∀ (l acc : List Color),
      x ∈ l.foldl (fun acc c => if c ∈ acc then acc else acc ++ [c]) acc →
      x ∈ acc ∨ x ∈ l := by
    intro l
    induction l with
    | nil => intro acc h; simp at h; exact Or.inl h
    | cons c t ih =>
      intro acc h
      rw [List.foldl_cons] at h
      rcases ih _ h with h3 | h3
      · by_cases hmem : c ∈ acc
        · rw [if_pos hmem] at h3; exact Or.inl h3
        · rw [if_neg hmem] at h3
          rcases List.mem_append.mp h3 with h4 | h4
          · exact Or.inl h4
          · simp at h4; subst h4; exact Or.inr (List.mem_cons_self _ _)
      · exact Or.inr (List.mem_cons_of_mem _ h3)
  rcases h2 samples [] h1 with h3 | h3
  · simp at h3
  · exact hs x h3

/-- C8: every cluster retained in the output of the Cluster Engine (on
samples within the 8-bit color-space bounds) has its centroid within
the valid color-space bounds and a member count of at least 1; empty
clusters are never reported. -/
theorem clusterEngine_cluster_invariant (k cap : Nat) (samples : List Color)
    (hs : ∀ c ∈ samples, c.valid) :
    ∀ cl ∈ (clusterEngine k cap samples).clusters, cl.centroid.valid ∧ 1 ≤ cl.count := by
  intro cl hcl
  simp only [clusterEngine] at hcl
  have hcl2 := List.mem_of_mem_filter hcl
  have hne := List.of_mem_filter hcl
  obtain ⟨⟨i, a⟩, hmem, rfl⟩ := List.mem_map.mp hcl2
  constructor
  · exact kmeansLoop_valid samples hs cap (seedCentroids k samples)
      (seedCentroids_valid k samples hs) a (snd_mem_of_mem_enum hmem)
  · simpa using Nat.one_le_iff_ne_zero.mpr (by simpa using hne)

/-- Witness for C8: on the two-color sample set (blue, blue, red) the
reported blue cluster of count 2 has a valid centroid and count 1 or
more. -/
theorem clusterEngine_cluster_invariant_witness :
    (Cluster.mk ⟨0, 0, 255⟩ 2).centroid.valid ∧ 1 ≤ (Cluster.mk ⟨0, 0, 255⟩ 2).count :=
  clusterEngine_cluster_invariant 3 10 [⟨0, 0, 255⟩, ⟨0, 0, 255⟩, ⟨255, 0, 0⟩] (by decide)
    (Cluster.mk ⟨0, 0, 255⟩ 2) (by decide)

end SkyColor

namespace SkyColor

theorem lexLe_iff (a b : Color) :
    lexLe a b = true ↔
      (a.r < b.r ∨ (a.r = b.r ∧ (a.g < b.g ∨ (a.g = b.g ∧ a.b ≤ b.b)))) := by
  simp [lexLe]

theorem lexLe_refl (a : Color) : lexLe a a = true := by
  rw [lexLe_iff]; omega

theorem lexLe_total (a b : Color) : lexLe a b = true ∨ lexLe b a = true := by
  rw [lexLe_iff, lexLe_iff]; omega

theorem lexLe_trans (a b c : Color) (h1 : lexLe a b = true) (h2 : lexLe b c = true) :
    lexLe a c = true := by
  rw [lexLe_iff] at h1 h2 ⊢; omega

theorem better_iff (a b : Cluster) :
    better a b = true ↔
      (b.count < a.count ∨ (a.count = b.count ∧ lexLe a.centroid b.centroid = true)) := by
  simp [better]

theorem pickDominant_spec (l : List Cluster) : ∀ best : Cluster,
    (pickDominant best l = best ∨ pickDominant best l ∈ l) ∧
    best.count ≤ (pickDominant best l).count ∧
    (best.count = (pickDominant best l).count →
      lexLe (pickDominant best l).centroid best.centroid = true) ∧
    (∀ d ∈ l, d.count ≤ (pickDominant best l).count ∧
      (d.count = (pickDominant best l).count →
        lexLe (pickDominant best l).centroid d.centroid = true)) := by
  induction l with
  | nil =>
    intro best
    exact ⟨Or.inl rfl, Nat.le_refl _, fun _ => lexLe_refl _, by simp⟩
  | cons c t ih =>
    intro best
    simp only [pickDominant]
    by_cases hb : better best c = true
    · rw [if_pos hb]
      obtain ⟨hmem, hle, htie, hall⟩ := ih best
      rw [better_iff] at hb
      refine ⟨?_, hle, htie, ?_⟩
      · rcases hmem with h | h
        · exact Or.inl h
        · exact Or.inr (List.mem_cons_of_mem _ h)
      · intro d hd
        rcases List.mem_cons.mp hd with h | h
        · subst h
          rcases hb with h1 | ⟨h1a, h1b⟩
          · exact ⟨by omega, fun hcnt => by omega⟩
          · refine ⟨by omega, fun hcnt => ?_⟩
            have hbp : best.count = (pickDominant best t).count := by omega
            exact lexLe_trans _ _ _ (htie hbp) h1b
        · exact hall d h
    · rw [if_neg hb]
      obtain ⟨hmem, hle, htie, hall⟩ := ih c
      have hb2 : ¬(c.count < best.count ∨
          (best.count = c.count ∧ lexLe best.centroid c.centroid = true)) := by
        rw [← better_iff]; exact hb
      push_neg at hb2
      obtain ⟨hb2a, hb2b⟩ := hb2
      refine ⟨?_, by omega, ?_, ?_⟩
      · rcases hmem with h | h
        · exact Or.inr (by rw [h]; exact List.mem_cons_self c t)
        · exact Or.inr (List.mem_cons_of_mem _ h)
      · intro hcnt
        have hbc : best.count = c.count := by omega
        have hcc : c.count = (pickDominant c t).count := by omega
        have h3 := hb2b hbc
        have h4 : lexLe c.centroid best.centroid = true := by
          rcases lexLe_total best.centroid c.centroid with h | h
          · exact absurd h h3
          · exact h
        exact lexLe_trans _ _ _ (htie hcc) h4
      · intro d hd
        rcases List.mem_cons.mp hd with h | h
        · subst h; exact ⟨hle, htie⟩
        · exact hall d h

/-- C7: for every non-empty Clustering Result the Dominant Color
Selector returns the centroid of a cluster with the largest member
count, breaking equal-count ties toward the lexicographically smallest
centroid; in particular with two clusters of unequal counts it returns
the larger-count cluster's centroid. -/
theorem dominantColorSelector_max (cs : List Cluster) (hne : cs ≠ []) :
    ∃ c ∈ cs, dominantColorSelector cs = .ok c.centroid ∧
      (∀ d ∈ cs, d.count ≤ c.count) ∧
      (∀ d ∈ cs, d.count = c.count → lexLe c.centroid d.centroid = true) := by
  match cs with
  | [] => exact absurd rfl hne
  | c0 :: rest =>
    obtain ⟨hmem, hle, htie, hall⟩ := pickDominant_spec rest c0
    refine ⟨pickDominant c0 rest, ?_, rfl, ?_, ?_⟩
    · rcases hmem with h | h
      · rw [h]; exact List.mem_cons_self c0 rest
      · exact List.mem_cons_of_mem _ h
    · intro d hd
      rcases List.mem_cons.mp hd with h | h
      · subst h; exact hle
      · exact (hall d h).1
    · intro d hd
      rcases List.mem_cons.mp hd with h | h
      · subst h; exact htie
      · exact (hall d h).2

/-- Witness for C7: with a blue cluster of count 5 and a red cluster
of count 3, the selector returns the blue centroid, the larger count. -/
theorem dominantColorSelector_max_witness :
    ∃ c ∈ [Cluster.mk ⟨0, 0, 255⟩ 5, Cluster.mk ⟨255, 0, 0⟩ 3],
      dominantColorSelector [Cluster.mk ⟨0, 0, 255⟩ 5, Cluster.mk ⟨255, 0, 0⟩ 3] =
        .ok c.centroid ∧
      (∀ d ∈ [Cluster.mk ⟨0, 0, 255⟩ 5, Cluster.mk ⟨255, 0, 0⟩ 3], d.count ≤ c.count) ∧
      (∀ d ∈ [Cluster.mk ⟨0, 0, 255⟩ 5, Cluster.mk ⟨255, 0, 0⟩ 3],
        d.count = c.count → lexLe c.centroid d.centroid = true) :=
  dominantColorSelector_max [Cluster.mk ⟨0, 0, 255⟩ 5, Cluster.mk ⟨255, 0, 0⟩ 3] (by decide)

end SkyColor

namespace SkyColor

theorem foldl_distinct_replicate (C : Color) (m : Nat) :
    ∀ acc : List Color, C ∈ acc →
      (List.replicate m C).foldl (fun acc c => if c ∈ acc then acc else acc ++ [c]) acc = acc := by
  induction m with
  | zero => intro acc _; rfl
  | succ p ih =>
    intro acc hC
    rw [List.replicate_succ, List.foldl_cons, if_pos hC]
    exact ih acc hC

theorem firstDistinct_replicate (C : Color) (n : Nat) (hn : 1 ≤ n) :
    firstDistinct (List.replicate n C) = [C] := by
  match n, hn with
  | m + 1, _ =>
    unfold firstDistinct
    rw [List.replicate_succ, List.foldl_cons]
    have h1 : (if C ∈ ([] : List Color) then ([] : List Color) else [] ++ [C]) = [C] := by simp
    rw [h1]
    exact foldl_distinct_replicate C m [C] (List.mem_singleton.mpr rfl)

theorem seedCentroids_replicate (C : Color) (n k : Nat) (hn : 1 ≤ n) (hk : 1 ≤ k) :
    seedCentroids k (List.replicate n C) = [C] := by
  unfold seedCentroids
  rw [firstDistinct_replicate C n hn]
  match k, hk with
  | m + 1, _ => rw [List.take_succ_cons, List.take_nil]

theorem nearestIdx_single (c s : Color) : nearestIdx [c] s = 0 := rfl

theorem assignAll_single (c C : Color) (n : Nat) :
    assignAll [c] (List.replicate n C) = List.replicate n 0 := by
  unfold assignAll
  rw [List.map_replicate, nearestIdx_single]

theorem members_replicate (C : Color) (n : Nat) :
    members (List.replicate n C) (List.replicate n 0) 0 = List.replicate n C := by
  unfold members
  rw [List.zip_replicate]
  simp [List.filter_replicate, List.map_replicate]

theorem sumR_replicate (C : Color) (n : Nat) : sumR (List.replicate n C) = n * C.r := by
  induction n with
  | zero => simp [sumR]
  | succ m ih =>
    rw [List.replicate_succ]
    simp only [sumR]
    rw [ih]
    ring

theorem sumG_replicate (C : Color) (n : Nat) : sumG (List.replicate n C) = n * C.g := by
  induction n with
  | zero => simp [sumG]
  | succ m ih =>
    rw [List.replicate_succ]
    simp only [sumG]
    rw [ih]
    ring

theorem sumB_replicate (C : Color) (n : Nat) : sumB (List.replicate n C) = n * C.b := by
  induction n with
  | zero => simp [sumB]
  | succ m ih =>
    rw [List.replicate_succ]
    simp only [sumB]
    rw [ih]
    ring

theorem meanColor_replicate (C : Color) (n : Nat) (hn : 1 ≤ n) (prev : Color) :
    meanColor (List.replicate n C) prev = C := by
  match n, hn with
  | m + 1, _ =>
    have hR := sumR_replicate C (m + 1)
    have hG := sumG_replicate C (m + 1)
    have hB := sumB_replicate C (m + 1)
    rw [List.replicate_succ] at hR hG hB ⊢
    have hlen : (C :: List.replicate m C).length = m + 1 := by simp
    show (⟨sumR (C :: List.replicate m C) / (C :: List.replicate m C).length,
          sumG (C :: List.replicate m C) / (C :: List.replicate m C).length,
          sumB (C :: List.replicate m C) / (C :: List.replicate m C).length⟩ : Color) = C
    rw [hR, hG, hB, hlen]
    have e1 : (m + 1) * C.r / (m + 1) = C.r := Nat.mul_div_cancel_left _ (Nat.succ_pos m)
    have e2 : (m + 1) * C.g / (m + 1) = C.g := Nat.mul_div_cancel_left _ (Nat.succ_pos m)
    have e3 : (m + 1) * C.b / (m + 1) = C.b := Nat.mul_div_cancel_left _ (Nat.succ_pos m)
    rw [e1, e2, e3]

theorem recompute_single (samples : List Color) (assign : List Nat) (c : Color) :
    recompute samples assign [c] = [meanColor (members samples assign 0) c] := rfl

theorem kmeansLoop_replicate (C : Color) (n : Nat) (hn : 1 ≤ n) (cap : Nat) :
    (kmeansLoop (List.replicate n C) cap [C]).1 = [C] := by
  cases cap with
  | zero => rfl
  | succ m =>
    simp only [kmeansLoop]
    have hc : recompute (List.replicate n C) (assignAll [C] (List.replicate n C)) [C] = [C] := by
      rw [assignAll_single, recompute_single, members_replicate, meanColor_replicate C n hn]
    rw [if_pos hc]

/-- C6: on a Sample Set consisting of one uniform color C repeated
n >= 1 times, the Cluster Engine converges to the single effective
cluster with centroid C and count n for every positive K and every
iteration cap, and the Dominant Color Selector returns C. -/
theorem clusterEngine_uniform (C : Color) (n k cap : Nat) (hn : 1 ≤ n) (hk : 1 ≤ k) :
    (clusterEngine k cap (List.replicate n C)).clusters = [⟨C, n⟩] ∧
    dominantColorSelector (clusterEngine k cap (List.replicate n C)).clusters = .ok C := by
  have hcl : (clusterEngine k cap (List.replicate n C)).clusters = [⟨C, n⟩] := by
    simp only [clusterEngine]
    rw [seedCentroids_replicate C n k hn hk, kmeansLoop_replicate C n hn cap, assignAll_single]
    have henum : ([C] : List Color).enum = [(0, C)] := rfl
    rw [henum]
    simp only [List.map_cons, List.map_nil]
    rw [List.filter_replicate]
    have h00 : ((0 : Nat) == 0) = true := rfl
    rw [h00, if_pos rfl, List.length_replicate]
    have hne : ((n != 0) = true) := by simpa using Nat.one_le_iff_ne_zero.mp hn
    simp [List.filter_cons, hne]
  exact ⟨hcl, by rw [hcl]; rfl⟩

/-- Witness for C6: the color (10,20,30) repeated 4 times with K = 3
and cap 7 yields the single cluster ((10,20,30), 4) and Dominant Color
(10,20,30). -/
theorem clusterEngine_uniform_witness :
    (clusterEngine 3 7 (List.replicate 4 ⟨10, 20, 30⟩)).clusters = [⟨⟨10, 20, 30⟩, 4⟩] ∧
    dominantColorSelector (clusterEngine 3 7 (List.replicate 4 ⟨10, 20, 30⟩)).clusters =
      .ok ⟨10, 20, 30⟩ :=
  clusterEngine_uniform ⟨10, 20, 30⟩ 4 3 7 (by decide) (by decide)

end SkyColor
